import Mathlib

/-!
Verification development for the fluxion plugin runtime and the tail input
engine. Definitions are shallow embeddings of the Go source files
(src/plugin/plugin.go and the two in-tail source files); theorems settle the
spec claims against those definitions.
-/

set_option autoImplicit false

namespace Fluxion

/-! ### Plugin runtime (src/plugin/plugin.go)

Events and sizers are opaque to the runtime; the runtime only moves them
around, so we model them as natural numbers. A user plugin is external code;
we model its observable behaviour: its capability kind (bare, filter or
output), whether `Init` and `Start` return an error, and its `Filter` and
`Encode` functions. `Filter` in Go returns `(*Event, error)`; we model it as
`Except String (Option Event)` where `ok none` is a nil event. Likewise
`Encode` returns `(buffer.Sizer, error)` modelled as
`Except String (Option Sizer)`. -/

abbrev Event := Nat

abbrev Sizer := Nat

inductive PluginKind where
  | bare
  | filter
  | output
deriving DecidableEq

structure PluginModel where
  kind : PluginKind
  initErr : Bool
  startErr : Bool
  filterFn : Event → Except String (Option Event)
  encodeFn : Event → Except String (Option Sizer)

/-- Messages that reach an exec unit mailbox (the default branch of
`plugin.eventLoop` routes everything except `TypInfoRequest` and `TypStop`;
`TypStop` is enqueued by `execUnit.stop`). The Configure payload string only
matters through the plugin's `Init` result, which is part of `PluginModel`. -/
inductive Msg where
  | bufferOption
  | configure
  | start
  | event (e : Event)
  | stop
deriving DecidableEq

inductive Level where
  | info
  | warning
  | critical
deriving DecidableEq

/-- A message written to the pipe by `execUnit.send`: `send` stamps
`m.UnitID = u.ID` before writing. `isChain` is true for `TypEventChain`. -/
structure OutMsg where
  isChain : Bool
  payload : Event
  unitID : Nat
deriving DecidableEq

/-- State threaded through one exec unit's `eventLoop`.

`buf` mirrors the local variable `var buf *buffer.Memory`: `none` is the Go
nil pointer and `some l` is a live memory buffer holding the pushed sizers
(the buffer itself is an external collaborator; we record only its
contents). `consumed` counts messages taken from the mailbox and handled.
`exited` records that the loop did an early `return` (the Init/Start error
paths), which skips the `close(u.doneC)` at the end of `eventLoop`.
`panicked` records a nil-pointer dereference: Go panics when `buf.Push` or
`buf.Close` runs with `buf == nil`. -/
structure LoopSt where
  buf : Option (List Sizer)
  sent : List OutMsg
  logs : List Level
  consumed : Nat
  closeCalled : Bool
  panicked : Bool
  exited : Bool
deriving DecidableEq

def initSt : LoopSt :=
  { buf := none, sent := [], logs := [], consumed := 0
    closeCalled := false, panicked := false, exited := false }

/-- One iteration of `execUnit.eventLoop` (plugin.go lines 179-242) handling
message `m` in state `s`. A dead state (already returned or panicked) absorbs
every message: the Go loop is no longer running. -/
def step (uid : Nat) (p : PluginModel) (s : LoopSt) (m : Msg) : LoopSt :=
  if s.exited || s.panicked then s else
  match m with
  | .bufferOption =>
      if p.kind = .output then
        { s with buf := some [], consumed := s.consumed + 1 }
      else
        { s with consumed := s.consumed + 1 }
  | .configure =>
      if p.initErr then
        { s with logs := s.logs ++ [.critical], exited := true
                 consumed := s.consumed + 1 }
      else
        { s with consumed := s.consumed + 1 }
  | .start =>
      if p.startErr then
        { s with logs := s.logs ++ [.critical], exited := true
                 consumed := s.consumed + 1 }
      else
        { s with consumed := s.consumed + 1 }
  | .event e =>
      match p.kind with
      | .filter =>
          match p.filterFn e with
          | .error _ =>
              { s with logs := s.logs ++ [.warning]
                       sent := s.sent ++ [⟨true, e, uid⟩]
                       consumed := s.consumed + 1 }
          | .ok (some r) =>
              { s with sent := s.sent ++ [⟨true, r, uid⟩]
                       consumed := s.consumed + 1 }
          | .ok none =>
              { s with consumed := s.consumed + 1 }
      | .output =>
          match p.encodeFn e with
          | .error _ =>
              { s with logs := s.logs ++ [.warning], consumed := s.consumed + 1 }
          | .ok none =>
              { s with consumed := s.consumed + 1 }
          | .ok (some sz) =>
              match s.buf with
              | none => { s with panicked := true, consumed := s.consumed + 1 }
              | some b => { s with buf := some (b ++ [sz]), consumed := s.consumed + 1 }
      | .bare =>
          { s with consumed := s.consumed + 1 }
  | .stop =>
      if p.kind = .output then
        match s.buf with
        | none => { s with panicked := true, consumed := s.consumed + 1 }
        | some _ => { s with closeCalled := true, consumed := s.consumed + 1 }
      else
        { s with closeCalled := true, consumed := s.consumed + 1 }

/-- Run `execUnit.eventLoop` over the whole mailbox content `ms` (the
mailbox is closed after its last message, so the `for m := range u.msgC`
loop sees exactly `ms`). -/
def runUnit (uid : Nat) (p : PluginModel) (ms : List Msg) : LoopSt :=
  ms.foldl (step uid p) initSt

/-- The statement `close(u.doneC)` runs exactly when the loop falls off the end of the
range without an early return and without a panic. -/
def doneSignaled (s : LoopSt) : Bool :=
  !s.exited && !s.panicked

/-- One entry of the runtime's `units` table at the moment `TypStop`
arrives: the unit id, its plugin instance, and the messages still pending in
its mailbox. `execUnit.stop` enqueues a `TypStop` behind them and closes the
mailbox. -/
structure UnitEntry where
  id : Nat
  p : PluginModel
  pending : List Msg

def unitFinal (u : UnitEntry) : LoopSt :=
  runUnit u.id u.p (u.pending ++ [Msg.stop])

inductive PipeOut where
  | terminated
  | unitOut (o : OutMsg)
deriving DecidableEq

/-- The `TypStop` case of `plugin.eventLoop` (lines 97-100) together with
`plugin.stop` (lines 112-122): one goroutine per unit runs `unit.stop`,
which blocks on `<-u.doneC`; `wg.Wait()` returns only when every unit has
closed its done channel, and only then is `TypTerminated` written. If some
unit never signals done, `wg.Wait` blocks forever and nothing is written,
modelled as `none`. -/
def stopAndTerminate (units : List UnitEntry) : Option (List PipeOut) :=
  if units.all (fun u => doneSignaled (unitFinal u)) then
    some ((units.flatMap fun u => (unitFinal u).sent.map PipeOut.unitOut) ++ [PipeOut.terminated])
  else
    none

/-! ### Watcher (src/unnamed/part_000, `Watcher.Scan` and `Watcher.open`)

`PositionEntry.IsRotated` lives in the position-file source, which is not
included; `Scan` only consumes its `(rotated, truncated)` answer, and those
two are mutually exclusive by their definition (rotated needs a changed
identity, truncated an unchanged one), so the answer is modelled as a
three-valued oracle input. The reader is modelled by the list of complete
lines `ReadLine` will deliver before reporting EOF; draining leaves an empty
reader. The handler and the logger are recorded as effects. -/

inductive RotStatus where
  | steady
  | rotated
  | truncated
deriving DecidableEq

structure WState where
  rotating : Bool
  r : Option (List String)
deriving DecidableEq

structure ScanResult where
  st : WState
  handled : List String
  sched : Option Nat
  logged : Bool
  checked : Bool
  readCalls : Nat
deriving DecidableEq

/-- The tail of `Watcher.Scan` after the rotation block: `if w.r == nil
return`, then loop `ReadLine` until EOF handing each line to the handler.
`sched`, `logged`, `checked` carry what the rotation block already did. -/
def scanRead (st : WState) (sched : Option Nat) (logged checked : Bool) : ScanResult :=
  match st.r with
  | none => ⟨st, [], sched, logged, checked, 0⟩
  | some lines =>
      ⟨{ st with r := some [] }, lines, sched, logged, checked, lines.length + 1⟩

/-- Model of `Watcher.Scan` (part_000 lines 288-327) under the mutex. When
`rotating` is false it consults `IsRotated`: on rotated it logs, computes the
delay from the presence of a reader, sets `rotating`, schedules `open` via
`time.AfterFunc` and falls through to the read loop; on truncated it logs,
sets `rotating`, starts `open` asynchronously (`go w.open()`, delay 0) and
returns before reading. When `rotating` is already true the whole block is
skipped and control goes straight to the read loop. -/
def Scan (st : WState) (rot : RotStatus) : ScanResult :=
  if st.rotating = false then
    match rot with
    | .rotated =>
        scanRead { st with rotating := true }
          (some (if st.r.isSome then 5 else 0)) true true
    | .truncated =>
        ⟨{ st with rotating := true }, [], some 0, true, true, 0⟩
    | .steady => scanRead st none false true
  else
    scanRead st none false false

/-- Model of `Watcher.open` (part_000 lines 248-265) under the same mutex: clear
`rotating`, close any existing reader, then try `NewPositionReader`;
`newReader` is the result of that attempt. On failure the code logs and
leaves `w.r` unchanged (it does not nil it); on success it installs the new
reader. fsnotify registration and the notify kick carry no state we track. -/
def openReader (st : WState) (newReader : Option (List String)) : WState :=
  match newReader with
  | some nr => ⟨false, some nr⟩
  | none => ⟨false, st.r⟩

/-! ### realTag (src/unnamed/part_000 lines 161-167)

Go strings are modelled as `List Char`. The source calls `strings.Contains`
with the one-character pattern `"*"`, `strings.Trim` with the one-character
cutset `"/"`, and `strings.Replace` with `n = -1` (replace all) and the
one-character patterns `"*"` and `"/"`; the helpers below embed those calls
for one-character patterns. -/

def goContains (s : List Char) (c : Char) : Bool :=
  s.any (fun d => d = c)

def trimChar (s : List Char) (c : Char) : List Char :=
  ((s.dropWhile (fun d => d = c)).reverse.dropWhile (fun d => d = c)).reverse

def replaceAllChar (s : List Char) (c : Char) (new : List Char) : List Char :=
  s.foldr (fun d acc => if d = c then new ++ acc else d :: acc) []

def realTag (tag path : List Char) : List Char :=
  if !goContains tag '*' then tag
  else replaceAllChar tag '*' (replaceAllChar (trimChar path '/') '/' ['.'])

/-! ### Line parsing (src/unnamed/part_000 `LineParser`, src/unnamed/part_001
`TailInput.parseLine`)

Parsed records are `map[string]interface{}` values; we model the values the
code inspects: strings (the record key and part_001 time key demand a string
via type assertion) and everything else. Parsers and time parsers are
external collaborators passed in as functions. An emitted event carries a
tag, an optional parsed time (`none` means `message.NewEvent` stamped the
current time) and the field map. -/

inductive Value where
  | str (s : String)
  | num (n : Nat)
deriving DecidableEq

abbrev Record := List (String × Value)

def lookupRec (v : Record) (k : String) : Option Value :=
  (v.find? (fun e => e.1 = k)).map (fun e => e.2)

def eraseRec (v : Record) (k : String) : Record :=
  v.filter (fun e => e.1 ≠ k)

structure EmittedEvent where
  tag : String
  time : Option Nat
  fields : Record
deriving DecidableEq

/-- Modelled from the spec: the parser package is not under src; the spec
says the fallback default parser "stores the raw line under a conventional
key". We fix that key as "message". Its error result is discarded at the
call site (`v, _ = parser.DefaultParser.Parse(line)`). -/
def DefaultParser_parse (line : String) : Record :=
  [("message", Value.str line)]

structure LineParserCtx where
  tag : String
  parse : String → Except String Record
  timeParse : Option (Value → Except String Nat)
  timeKey : String
  rkey : String
  rparse : Option (String → Except String Record)

/-- Model of `LineParser.makeEvent` (part_000 lines 189-213): first the optional
record re-parse (guarded by `l.rkey != "" && l.rparser != nil`, needing the
field to be a string), then the optional time extraction (guarded by
`l.timeKey != "" && l.timeParser != nil`); a successful time parse returns
`NewEventWithTime`, everything else falls through to `NewEvent`. -/
def makeEvent (l : LineParserCtx) (v0 : Record) : EmittedEvent :=
  let v :=
    match l.rparse with
    | some rp =>
        if l.rkey = "" then v0
        else
          match lookupRec v0 l.rkey with
          | some (.str s) =>
              match rp s with
              | .ok rec => rec
              | .error _ => v0
          | _ => v0
    | none => v0
  match l.timeParse with
  | some tp =>
      if l.timeKey = "" then ⟨l.tag, none, v⟩
      else
        match lookupRec v l.timeKey with
        | some val =>
            match tp val with
            | .ok t => ⟨l.tag, some t, v⟩
            | .error _ => ⟨l.tag, none, v⟩
        | none => ⟨l.tag, none, v⟩
  | none => ⟨l.tag, none, v⟩

/-- Model of `LineParser.parseLine` (part_000 lines 179-187): parse the line; on
error log a warning and use the default parser instead; either way emit
exactly one event built by `makeEvent`. The returned list holds the events
passed to `env.Emit`. -/
def LineParser_parseLine (l : LineParserCtx) (b : String) : List EmittedEvent :=
  match l.parse b with
  | .ok v => [makeEvent l v]
  | .error _ => [makeEvent l (DefaultParser_parse b)]

structure TailCtx where
  tag : String
  timeKey : String
  parse : String → Except String Record
  timeParse : Option (String → Except String Nat)

/-- Model of `TailInput.parseLine` of the standalone in-tail plugin (part_001 lines
110-130): on a parser error it plainly returns, emitting nothing; otherwise
it builds a record, extracting the time when the time key holds a string
which the time parser accepts (deleting that key from the fields). -/
def TailInput_parseLine (c : TailCtx) (line : String) : List EmittedEvent :=
  match c.parse line with
  | .error _ => []
  | .ok v =>
      match c.timeParse with
      | some tp =>
          if c.timeKey = "" then [⟨c.tag, none, v⟩]
          else
            match lookupRec v c.timeKey with
            | some (.str s) =>
                match tp s with
                | .ok t => [⟨c.tag, some t, eraseRec v c.timeKey⟩]
                | .error _ => [⟨c.tag, none, v⟩]
            | _ => [⟨c.tag, none, v⟩]
      | none => [⟨c.tag, none, v⟩]

/-! ### Path watcher iteration (src/unnamed/part_000 lines 111-159)

One iteration of `TailInput.pathWatcher`: build the `changes` map starting
from every current watcher key mapped to false; for each glob result `f`
(after `filepath.Clean`, an external function passed in as `clean`), delete
`f` from `changes` when present, otherwise insert `(f, true)`. Then apply:
`added` creates a watcher under key `f` (a Go map assignment, so the key set
gains `f`), `!added` removes the registration, closes the watcher and
deletes the key. The watchers map is modelled by its key list; `changes` by
an association list whose insertion order matches the fold (final key sets
do not depend on Go's map iteration order because the change keys are
distinct). -/

def chStep (ch : List (String × Bool)) (f : String) : List (String × Bool) :=
  if ch.any (fun e => e.1 = f) then ch.filter (fun e => e.1 ≠ f)
  else ch ++ [(f, true)]

def buildChanges (ws files : List String) : List (String × Bool) :=
  files.foldl chStep (ws.map (fun f => (f, false)))

def applyChange (ws : List String) (e : String × Bool) : List String :=
  if e.2 then (if ws.contains e.1 then ws else ws ++ [e.1])
  else ws.filter (fun x => x ≠ e.1)

def pathWatcherIter (clean : String → String) (ws files : List String) : List String :=
  (buildChanges ws (files.map clean)).foldl applyChange ws

def createdPaths (clean : String → String) (ws files : List String) : List String :=
  ((buildChanges ws (files.map clean)).filter (fun e => e.2)).map (fun e => e.1)

def removedPaths (clean : String → String) (ws files : List String) : List String :=
  ((buildChanges ws (files.map clean)).filter (fun e => !e.2)).map (fun e => e.1)

/-- Invariant of the `changes` map while the glob results are folded in:
after processing the (duplicate-free) prefix `S` of the cleaned glob
results starting from the watcher key set `W`, the map holds `(x, false)`
exactly for the still-unseen watcher keys and `(x, true)` exactly for the
seen non-watcher paths, and its keys are distinct. -/
def ChInv (W S : List String) (ch : List (String × Bool)) : Prop :=
  (ch.map Prod.fst).Nodup ∧
  ∀ x, ((x, false) ∈ ch ↔ x ∈ W ∧ x ∉ S) ∧ ((x, true) ∈ ch ↔ x ∈ S ∧ x ∉ W)

/-! ### Tail input Init (part_000 lines 42-71, part_001 lines 41-65) -/

structure TailConfig where
  tag : String
  path : String
  posFile : String
  format : String
  timeKey : String
  timeFormat : String
  timeZone : String
  recordKey : String
  recordFormat : String
  readFromHead : Bool
deriving DecidableEq

/-- The time-key normalization step of `TailInput.Init`, identical in
part_000 (lines 49-51) and part_001 (lines 48-50): an unset `time_key`
defaults to "time". -/
def TailInput_initTimeKey (c : TailConfig) : TailConfig :=
  if c.timeKey = "" then { c with timeKey := "time" } else c

/-! ### Concrete instances used by witnesses and counterexamples -/

/-- A bare plugin whose `Init`, `Start` and `Close` all succeed. -/
def bareOk : PluginModel :=
  ⟨.bare, false, false, fun _ => .ok none, fun _ => .ok none⟩

/-- A bare plugin whose `Init` and `Start` both return an error. -/
def failBoth : PluginModel :=
  ⟨.bare, true, true, fun _ => .ok none, fun _ => .ok none⟩

/-- A filter plugin: `Filter` errors on event 0, maps event 1 to 7, and
returns a nil event otherwise. -/
def filterP : PluginModel :=
  ⟨.filter, false, false,
    fun e => if e = 0 then .error "boom" else if e = 1 then .ok (some 7) else .ok none,
    fun _ => .ok none⟩

/-- An output plugin whose `Encode` always yields a non-nil sizer. -/
def outP : PluginModel :=
  ⟨.output, false, false, fun _ => .ok none, fun _ => .ok (some 1)⟩

/-- A line parser that rejects every line. -/
def failParse : String → Except String Record :=
  fun _ => .error "parse error"

def lpFail : LineParserCtx :=
  ⟨"t", failParse, none, "time", "", none⟩

def tcFail : TailCtx :=
  ⟨"t", "time", failParse, none⟩

/-- A time parser accepting numeric values only. -/
def tpNum : Value → Except String Nat :=
  fun v => match v with | .num n => .ok n | .str _ => .error "bad time"

def lpTime : LineParserCtx :=
  ⟨"t", fun s => .ok [("message", .str s)], some tpNum, "time", "", none⟩

def confNoTime : TailConfig :=
  ⟨"tg", "/tmp/a.log", "pos", "", "", "", "", "", "", false⟩

/-- The behaviour of `filepath.Clean` on the two glob results of the
counterexample for the path-watcher iteration: with the glob pattern
`a/STAR/../c` (STAR the meta character) and directories `a/b` and `a/d` each
holding a file `c`, `filepath.Glob` returns `a/b/../c` and `a/d/../c`, and
`filepath.Clean` resolves both to `a/c`. -/
def cleanPair : String → String :=
  fun s => if s = "a/b/../c" then "a/c" else if s = "a/d/../c" then "a/c" else s

/-! ## Helper lemmas about the exec-unit event loop -/

theorem step_dead {uid : Nat} {p : PluginModel} {s : LoopSt} (m : Msg)
    (h : (s.exited || s.panicked) = true) : step uid p s m = s := by
  unfold step
  simp [h]

theorem foldl_dead {uid : Nat} {p : PluginModel} {s : LoopSt}
    (ms : List Msg) (h : (s.exited || s.panicked) = true) :
    ms.foldl (step uid p) s = s := by
  induction ms with
  | nil => rfl
  | cons m ms ih => rw [List.foldl_cons, step_dead m h, ih]

theorem live_of_step_live {uid : Nat} {p : PluginModel} {s : LoopSt} (m : Msg)
    (h : ((step uid p s m).exited || (step uid p s m).panicked) = false) :
    (s.exited || s.panicked) = false := by
  by_cases hb : (s.exited || s.panicked) = true
  · rw [step_dead m hb] at h
    rw [hb] at h
    exact absurd h (by simp)
  · exact Bool.eq_false_iff.mpr hb

theorem live_of_foldl_live {uid : Nat} {p : PluginModel} {s : LoopSt}
    (ms : List Msg)
    (h : ((ms.foldl (step uid p) s).exited || (ms.foldl (step uid p) s).panicked) = false) :
    (s.exited || s.panicked) = false := by
  by_cases hb : (s.exited || s.panicked) = true
  · rw [foldl_dead ms hb] at h
    rw [hb] at h
    exact absurd h (by simp)
  · exact Bool.eq_false_iff.mpr hb

theorem step_live_consumed {uid : Nat} {p : PluginModel} {s : LoopSt} (m : Msg)
    (h : (s.exited || s.panicked) = false) :
    (step uid p s m).consumed = s.consumed + 1 := by
  cases m <;> simp [step, h] <;> (repeat' split) <;> rfl

theorem step_stop_close {uid : Nat} {p : PluginModel} {s : LoopSt}
    (hlive : (s.exited || s.panicked) = false)
    (hnp : (step uid p s Msg.stop).panicked = false) :
    (step uid p s Msg.stop).closeCalled = true := by
  simp [step, hlive] at hnp ⊢
  by_cases hk : p.kind = PluginKind.output
  · simp only [hk, if_true] at hnp ⊢
    cases hb : s.buf with
    | none =>
        rw [hb] at hnp
        simp at hnp
    | some b => rfl
  · simp [if_neg hk]

theorem foldl_live_consumed {uid : Nat} {p : PluginModel} :
    ∀ (ms : List Msg) (s : LoopSt),
      ((ms.foldl (step uid p) s).exited || (ms.foldl (step uid p) s).panicked) = false →
      (ms.foldl (step uid p) s).consumed = s.consumed + ms.length := by
  intro ms
  induction ms with
  | nil => intro s _; rfl
  | cons m ms ih =>
      intro s h
      rw [List.foldl_cons] at h ⊢
      have h1 : ((step uid p s m).exited || (step uid p s m).panicked) = false :=
        live_of_foldl_live ms h
      have h2 : (s.exited || s.panicked) = false := live_of_step_live m h1
      rw [ih (step uid p s m) h, step_live_consumed m h2]
      simp only [List.length_cons]
      omega

/-- C1: in every run of the plugin runtime main loop that receives a Stop
message, the Terminated message is written to the pipe only after every exec
unit in the units table has consumed all messages in its mailbox up to and
including the Stop message and its plugin Close call has returned. -/
theorem terminated_only_after_drain (units : List UnitEntry) (tr : List PipeOut)
    (h : stopAndTerminate units = some tr) :
    (∀ u ∈ units, (unitFinal u).consumed = u.pending.length + 1 ∧
      (unitFinal u).closeCalled = true) ∧
    tr.getLast? = some PipeOut.terminated ∧
    (∀ o ∈ tr.dropLast, o ≠ PipeOut.terminated) := by
  unfold stopAndTerminate at h
  split at h
  case isFalse => exact Option.noConfusion h
  case isTrue hall =>
    injection h with h
    subst h
    refine ⟨?_, ?_, ?_⟩
    · intro u hu
      have hd : doneSignaled (unitFinal u) = true := List.all_eq_true.mp hall u hu
      unfold doneSignaled at hd
      rw [Bool.and_eq_true, Bool.not_eq_true', Bool.not_eq_true'] at hd
      have hfin : ((unitFinal u).exited || (unitFinal u).panicked) = false := by
        rw [hd.1, hd.2]
        rfl
      have hsplit : unitFinal u = step u.id u.p (runUnit u.id u.p u.pending) Msg.stop := by
        unfold unitFinal runUnit
        rw [List.foldl_append]
        rfl
      rw [hsplit] at hfin
      have hlive0 : ((runUnit u.id u.p u.pending).exited ||
          (runUnit u.id u.p u.pending).panicked) = false :=
        live_of_step_live Msg.stop hfin
      constructor
      · rw [hsplit, step_live_consumed Msg.stop hlive0]
        unfold runUnit
        have := @foldl_live_consumed u.id u.p u.pending initSt hlive0
        rw [this]
        simp [initSt]
      · rw [hsplit]
        refine step_stop_close hlive0 ?_
        rw [← hsplit]
        exact hd.2
    · exact List.getLast?_concat _
    · intro o ho
      rw [List.dropLast_concat] at ho
      obtain ⟨u, _, ho⟩ := List.mem_flatMap.mp ho
      obtain ⟨om, _, rfl⟩ := List.mem_map.mp ho
      simp

/-- Witness for C1 at a concrete one-unit table. -/
theorem terminated_only_after_drain_witness :
    stopAndTerminate [⟨1, bareOk, [Msg.configure]⟩] = some [PipeOut.terminated] ∧
    ((∀ u ∈ [(⟨1, bareOk, [Msg.configure]⟩ : UnitEntry)],
        (unitFinal u).consumed = u.pending.length + 1 ∧
        (unitFinal u).closeCalled = true) ∧
      ([PipeOut.terminated] : List PipeOut).getLast? = some PipeOut.terminated ∧
      (∀ o ∈ ([PipeOut.terminated] : List PipeOut).dropLast, o ≠ PipeOut.terminated)) :=
  ⟨by decide, terminated_only_after_drain [⟨1, bareOk, [Msg.configure]⟩] [PipeOut.terminated]
    (by decide)⟩

theorem runUnit_concat (uid : Nat) (p : PluginModel) (ms : List Msg) (m : Msg) :
    runUnit uid p (ms ++ [m]) = step uid p (runUnit uid p ms) m := by
  unfold runUnit
  rw [List.foldl_append]
  rfl

theorem runUnit_append_cons (uid : Nat) (p : PluginModel) (ms rest : List Msg) (m : Msg) :
    runUnit uid p (ms ++ m :: rest) =
      rest.foldl (step uid p) (step uid p (runUnit uid p ms) m) := by
  unfold runUnit
  rw [List.foldl_append]
  rfl

/-- C2 counterexample: a unit whose plugin `Init` fails does not reach the
done-signaled state (`close(u.doneC)` never runs because the event loop
returns early), whereas processing a Stop message does signal done. -/
theorem initErr_not_done_cex :
    doneSignaled (runUnit 1 failBoth [Msg.configure]) = false ∧
    doneSignaled (runUnit 1 failBoth [Msg.stop]) = true := by
  decide

/-- C2 amended: when `Init` (on a Configure message) or `Start` (on a Start
message) returns an error, the unit logs at critical level and its event
loop returns, consuming none of the remaining messages and never calling
`Close`; unlike the Stop path, the done channel is not signaled. Other units
are untouched by construction: a unit's run depends only on its own plugin
and mailbox. -/
theorem execUnit_initStartErr (uid : Nat) (p : PluginModel) (ms rest : List Msg)
    (hl : ((runUnit uid p ms).exited || (runUnit uid p ms).panicked) = false) :
    (p.initErr = true →
      (runUnit uid p (ms ++ Msg.configure :: rest)).exited = true ∧
      doneSignaled (runUnit uid p (ms ++ Msg.configure :: rest)) = false ∧
      (runUnit uid p (ms ++ Msg.configure :: rest)).consumed =
        (runUnit uid p ms).consumed + 1 ∧
      (runUnit uid p (ms ++ Msg.configure :: rest)).logs =
        (runUnit uid p ms).logs ++ [Level.critical] ∧
      (runUnit uid p (ms ++ Msg.configure :: rest)).closeCalled =
        (runUnit uid p ms).closeCalled) ∧
    (p.startErr = true →
      (runUnit uid p (ms ++ Msg.start :: rest)).exited = true ∧
      doneSignaled (runUnit uid p (ms ++ Msg.start :: rest)) = false ∧
      (runUnit uid p (ms ++ Msg.start :: rest)).consumed =
        (runUnit uid p ms).consumed + 1 ∧
      (runUnit uid p (ms ++ Msg.start :: rest)).logs =
        (runUnit uid p ms).logs ++ [Level.critical] ∧
      (runUnit uid p (ms ++ Msg.start :: rest)).closeCalled =
        (runUnit uid p ms).closeCalled) := by
  constructor
  · intro hinit
    have hstep : step uid p (runUnit uid p ms) Msg.configure =
        { runUnit uid p ms with
            logs := (runUnit uid p ms).logs ++ [Level.critical]
            exited := true
            consumed := (runUnit uid p ms).consumed + 1 } := by
      simp [step, hl, hinit]
    have hdead : rest.foldl (step uid p) (step uid p (runUnit uid p ms) Msg.configure) =
        step uid p (runUnit uid p ms) Msg.configure := by
      refine foldl_dead rest ?_
      rw [hstep]
      simp
    rw [runUnit_append_cons, hdead, hstep]
    simp [doneSignaled]
  · intro hstart
    have hstep : step uid p (runUnit uid p ms) Msg.start =
        { runUnit uid p ms with
            logs := (runUnit uid p ms).logs ++ [Level.critical]
            exited := true
            consumed := (runUnit uid p ms).consumed + 1 } := by
      simp [step, hl, hstart]
    have hdead : rest.foldl (step uid p) (step uid p (runUnit uid p ms) Msg.start) =
        step uid p (runUnit uid p ms) Msg.start := by
      refine foldl_dead rest ?_
      rw [hstep]
      simp
    rw [runUnit_append_cons, hdead, hstep]
    simp [doneSignaled]

/-- Witness for C2's amended theorem at a concrete unit. -/
theorem execUnit_initStartErr_witness :
    ((failBoth.initErr = true →
      (runUnit 1 failBoth ([] ++ Msg.configure :: [])).exited = true ∧
      doneSignaled (runUnit 1 failBoth ([] ++ Msg.configure :: [])) = false ∧
      (runUnit 1 failBoth ([] ++ Msg.configure :: [])).consumed =
        (runUnit 1 failBoth []).consumed + 1 ∧
      (runUnit 1 failBoth ([] ++ Msg.configure :: [])).logs =
        (runUnit 1 failBoth []).logs ++ [Level.critical] ∧
      (runUnit 1 failBoth ([] ++ Msg.configure :: [])).closeCalled =
        (runUnit 1 failBoth []).closeCalled) ∧
    (failBoth.startErr = true →
      (runUnit 1 failBoth ([] ++ Msg.start :: [])).exited = true ∧
      doneSignaled (runUnit 1 failBoth ([] ++ Msg.start :: [])) = false ∧
      (runUnit 1 failBoth ([] ++ Msg.start :: [])).consumed =
        (runUnit 1 failBoth []).consumed + 1 ∧
      (runUnit 1 failBoth ([] ++ Msg.start :: [])).logs =
        (runUnit 1 failBoth []).logs ++ [Level.critical] ∧
      (runUnit 1 failBoth ([] ++ Msg.start :: [])).closeCalled =
        (runUnit 1 failBoth []).closeCalled)) :=
  execUnit_initStartErr 1 failBoth [] [] (by decide)

/-- C5: a filter-plugin exec unit processing an Event: on `Filter` error it
logs a warning and sends an EventChain holding the original event unchanged
with the unit's id; on success with a non-nil result it sends that result;
on a nil result with no error it sends nothing. -/
theorem filter_event_handling (uid : Nat) (p : PluginModel) (ms : List Msg) (e : Event)
    (hk : p.kind = PluginKind.filter)
    (hl : ((runUnit uid p ms).exited || (runUnit uid p ms).panicked) = false) :
    (∀ err, p.filterFn e = .error err →
      (runUnit uid p (ms ++ [Msg.event e])).sent =
        (runUnit uid p ms).sent ++ [⟨true, e, uid⟩] ∧
      (runUnit uid p (ms ++ [Msg.event e])).logs =
        (runUnit uid p ms).logs ++ [Level.warning]) ∧
    (∀ r, p.filterFn e = .ok (some r) →
      (runUnit uid p (ms ++ [Msg.event e])).sent =
        (runUnit uid p ms).sent ++ [⟨true, r, uid⟩] ∧
      (runUnit uid p (ms ++ [Msg.event e])).logs = (runUnit uid p ms).logs) ∧
    (p.filterFn e = .ok none →
      (runUnit uid p (ms ++ [Msg.event e])).sent = (runUnit uid p ms).sent ∧
      (runUnit uid p (ms ++ [Msg.event e])).logs = (runUnit uid p ms).logs) := by
  refine ⟨fun err hf => ?_, fun r hf => ?_, fun hf => ?_⟩ <;>
    rw [runUnit_concat] <;>
    simp [step, hl, hk, hf]

/-- Witness for C5 at a concrete filter plugin, exercising the error case. -/
theorem filter_event_handling_witness :
    filterP.kind = PluginKind.filter ∧
    ((∀ err, filterP.filterFn 0 = .error err →
      (runUnit 9 filterP ([] ++ [Msg.event 0])).sent =
        (runUnit 9 filterP []).sent ++ [⟨true, 0, 9⟩] ∧
      (runUnit 9 filterP ([] ++ [Msg.event 0])).logs =
        (runUnit 9 filterP []).logs ++ [Level.warning]) ∧
    (∀ r, filterP.filterFn 0 = .ok (some r) →
      (runUnit 9 filterP ([] ++ [Msg.event 0])).sent =
        (runUnit 9 filterP []).sent ++ [⟨true, r, 9⟩] ∧
      (runUnit 9 filterP ([] ++ [Msg.event 0])).logs = (runUnit 9 filterP []).logs) ∧
    (filterP.filterFn 0 = .ok none →
      (runUnit 9 filterP ([] ++ [Msg.event 0])).sent = (runUnit 9 filterP []).sent ∧
      (runUnit 9 filterP ([] ++ [Msg.event 0])).logs = (runUnit 9 filterP []).logs)) :=
  ⟨rfl, filter_event_handling 9 filterP [] 0 rfl (by decide)⟩

theorem step_output_nobuf {uid : Nat} {p : PluginModel}
    (hk : p.kind = PluginKind.output) (m : Msg) (hm : m ≠ Msg.bufferOption)
    (s : LoopSt) (hlive : (s.exited || s.panicked) = false) (hb : s.buf = none) :
    (step uid p s m).buf = none ∧
    ((step uid p s m).panicked = false → (step uid p s m).closeCalled = s.closeCalled) := by
  cases m with
  | bufferOption => exact absurd rfl hm
  | configure => constructor <;> simp [step, hlive] <;> split <;> simp [hb]
  | start => constructor <;> simp [step, hlive] <;> split <;> simp [hb]
  | event e =>
      rcases he : p.encodeFn e with err | r
      · constructor <;> simp [step, hlive, hk, he, hb]
      · rcases r with _ | sz
        · constructor <;> simp [step, hlive, hk, he, hb]
        · constructor <;> simp [step, hlive, hk, he, hb]
  | stop => constructor <;> simp [step, hlive, hk, hb]

theorem output_nobuf_invariant (uid : Nat) (p : PluginModel)
    (hk : p.kind = PluginKind.output) :
    ∀ (ms : List Msg) (s : LoopSt), Msg.bufferOption ∉ ms → s.buf = none →
      (ms.foldl (step uid p) s).buf = none ∧
      ((ms.foldl (step uid p) s).panicked = false → s.closeCalled = false →
        (ms.foldl (step uid p) s).closeCalled = false) := by
  intro ms
  induction ms with
  | nil => exact fun s _ hb => ⟨hb, fun _ hc => hc⟩
  | cons m ms ih =>
      intro s hm hb
      rw [List.foldl_cons]
      have hm2 : Msg.bufferOption ∉ ms := fun hx => hm (List.mem_cons_of_mem m hx)
      have hm1 : m ≠ Msg.bufferOption := fun hx => hm (hx ▸ List.mem_cons_self m ms)
      by_cases hdead : (s.exited || s.panicked) = true
      · rw [step_dead m hdead]
        exact ih s hm2 hb
      · have hlive : (s.exited || s.panicked) = false := Bool.eq_false_iff.mpr hdead
        obtain ⟨hb1, hcc1⟩ := step_output_nobuf hk m hm1 s hlive hb
        obtain ⟨ihb, ihcc⟩ := ih (step uid p s m) hm2 hb1
        refine ⟨ihb, fun hpf hcc0 => ?_⟩
        have hs1p : (step uid p s m).panicked = false := by
          by_cases hx : ((step uid p s m).exited || (step uid p s m).panicked) = true
          · rw [foldl_dead ms hx] at hpf
            exact hpf
          · have := Bool.eq_false_iff.mpr hx
            simp at this
            exact this.2
        exact ihcc hpf ((hcc1 hs1p).trans hcc0)

/-- C9: for an output-plugin exec unit with no BufferOption processed
earlier, a Stop message reaches `buf.Close()` with a nil buffer (a panic,
before `p.Close()` runs), and an Event whose Encode yields a non-nil sizer
reaches `buf.Push(s)` with a nil buffer; the dereferences carry no nil
guard, so they are safe only when a BufferOption was processed first. -/
theorem output_nil_buffer_deref (uid : Nat) (p : PluginModel) (ms : List Msg)
    (e : Event) (sz : Sizer)
    (hk : p.kind = PluginKind.output) (hnb : Msg.bufferOption ∉ ms)
    (hl : ((runUnit uid p ms).exited || (runUnit uid p ms).panicked) = false) :
    (runUnit uid p (ms ++ [Msg.stop])).panicked = true ∧
    (runUnit uid p (ms ++ [Msg.stop])).closeCalled = false ∧
    (p.encodeFn e = .ok (some sz) →
      (runUnit uid p (ms ++ [Msg.event e])).panicked = true) := by
  obtain ⟨hbuf0, hcc0⟩ := output_nobuf_invariant uid p hk ms initSt hnb rfl
  have hbuf : (runUnit uid p ms).buf = none := hbuf0
  have hpan : (runUnit uid p ms).panicked = false := by
    have := hl
    simp at this
    exact this.2
  have hccf : (runUnit uid p ms).closeCalled = false := hcc0 hpan rfl
  refine ⟨?_, ?_, fun he => ?_⟩
  · rw [runUnit_concat]
    simp [step, hl, hk, hbuf]
  · rw [runUnit_concat]
    simp [step, hl, hk, hbuf, hccf]
  · rw [runUnit_concat]
    simp [step, hl, hk, he, hbuf]

/-- Witness for C9 at a concrete output plugin with an empty prefix. -/
theorem output_nil_buffer_deref_witness :
    Msg.bufferOption ∉ ([] : List Msg) ∧
    ((runUnit 3 outP ([] ++ [Msg.stop])).panicked = true ∧
    (runUnit 3 outP ([] ++ [Msg.stop])).closeCalled = false ∧
    (outP.encodeFn 0 = .ok (some 1) →
      (runUnit 3 outP ([] ++ [Msg.event 0])).panicked = true)) :=
  ⟨by decide, output_nil_buffer_deref 3 outP [] 0 1 rfl (by decide) (by decide)⟩

/-! ## Watcher claims -/

/-- C3 counterexample: a Scan that begins while `rotating` is true and a
reader is present (the state during the 5-second rotation grace window)
does call ReadLine and does hand lines to the handler: the rotation block is
skipped, but the read loop is not. -/
theorem scan_while_rotating_reads_cex :
    (Scan ⟨true, some ["l1"]⟩ RotStatus.steady).handled = ["l1"] ∧
    0 < (Scan ⟨true, some ["l1"]⟩ RotStatus.steady).readCalls := by
  decide

/-- C3 amended: while `rotating` is true, Scan skips the rotation and
truncation check, schedules no open and leaves `rotating` set, but it is not
blocked: it still drains the currently installed reader (all ReadLine calls
of the invocation target that single reader, so one Scan never mixes the old
and new inode); only `open` clears the flag. -/
theorem scan_while_rotating (st : WState) (rot : RotStatus)
    (h : st.rotating = true) :
    (Scan st rot).checked = false ∧
    (Scan st rot).sched = none ∧
    (Scan st rot).st.rotating = true ∧
    (Scan st rot).handled = st.r.getD [] ∧
    (∀ nr, (openReader st nr).rotating = false) := by
  unfold Scan
  rw [h]
  simp only [Bool.true_eq_false, if_false]
  cases hr : st.r with
  | none =>
      refine ⟨?_, ?_, ?_, ?_, ?_⟩
      · simp [scanRead, hr]
      · simp [scanRead, hr]
      · simp [scanRead, hr, h]
      · simp [scanRead, hr]
      · intro nr; cases nr <;> simp [openReader]
  | some lines =>
      refine ⟨?_, ?_, ?_, ?_, ?_⟩
      · simp [scanRead, hr]
      · simp [scanRead, hr]
      · simp [scanRead, hr, h]
      · simp [scanRead, hr]
      · intro nr; cases nr <;> simp [openReader]

/-- Witness for C3's amended theorem at a concrete rotating state. -/
theorem scan_while_rotating_witness :
    (Scan ⟨true, some ["a"]⟩ RotStatus.steady).checked = false ∧
    (Scan ⟨true, some ["a"]⟩ RotStatus.steady).sched = none ∧
    (Scan ⟨true, some ["a"]⟩ RotStatus.steady).st.rotating = true ∧
    (Scan ⟨true, some ["a"]⟩ RotStatus.steady).handled =
      (some ["a"] : Option (List String)).getD [] ∧
    (∀ nr, (openReader ⟨true, some ["a"]⟩ nr).rotating = false) :=
  scan_while_rotating ⟨true, some ["a"]⟩ RotStatus.steady rfl

/-- C4: a Scan on a non-rotating watcher: when `IsRotated` reports rotated
it logs, sets `rotating`, and schedules `open` with a 5-second delay when a
reader is present and immediately otherwise; when it reports truncated it
logs, sets `rotating`, schedules `open` immediately, and returns without
reading any line. -/
theorem scan_rotation_truncation (st : WState) (h : st.rotating = false) :
    ((Scan st RotStatus.rotated).logged = true ∧
      (Scan st RotStatus.rotated).st.rotating = true ∧
      (Scan st RotStatus.rotated).sched = some (if st.r.isSome then 5 else 0)) ∧
    ((Scan st RotStatus.truncated).logged = true ∧
      (Scan st RotStatus.truncated).st.rotating = true ∧
      (Scan st RotStatus.truncated).sched = some 0 ∧
      (Scan st RotStatus.truncated).handled = [] ∧
      (Scan st RotStatus.truncated).readCalls = 0) := by
  unfold Scan
  rw [h]
  cases hr : st.r with
  | none => simp [scanRead, hr]
  | some lines => simp [scanRead, hr]

/-- Witness for C4 at a concrete state with a present reader. -/
theorem scan_rotation_truncation_witness :
    (((Scan ⟨false, some ["x"]⟩ RotStatus.rotated).logged = true ∧
      (Scan ⟨false, some ["x"]⟩ RotStatus.rotated).st.rotating = true ∧
      (Scan ⟨false, some ["x"]⟩ RotStatus.rotated).sched =
        some (if (some ["x"] : Option (List String)).isSome then 5 else 0)) ∧
    ((Scan ⟨false, some ["x"]⟩ RotStatus.truncated).logged = true ∧
      (Scan ⟨false, some ["x"]⟩ RotStatus.truncated).st.rotating = true ∧
      (Scan ⟨false, some ["x"]⟩ RotStatus.truncated).sched = some 0 ∧
      (Scan ⟨false, some ["x"]⟩ RotStatus.truncated).handled = [] ∧
      (Scan ⟨false, some ["x"]⟩ RotStatus.truncated).readCalls = 0)) :=
  scan_rotation_truncation ⟨false, some ["x"]⟩ rfl

/-! ## Line-parsing claims -/

/-- C6 counterexample: in the standalone in-tail plugin, a line whose parse
fails is silently dropped: `parseLine` returns without emitting anything. -/
theorem tailInput_parseLine_drops_cex :
    tcFail.parse "raw line" = Except.error "parse error" ∧
    TailInput_parseLine tcFail "raw line" = [] := by
  constructor <;> rfl

/-- C6 amended: in the fsnotify-based tail input, `LineParser.parseLine`
reacts to a parser error by falling back to the default parser, which stores
the raw line under a conventional key, and still emits exactly one event; in
the standalone in-tail variant, `TailInput.parseLine` returns without
emitting on a parser error, dropping the line. -/
theorem parseLine_error_behaviour (l : LineParserCtx) (c : TailCtx) (b : String)
    (e1 e2 : String) (h1 : l.parse b = .error e1) (h2 : c.parse b = .error e2) :
    LineParser_parseLine l b = [makeEvent l [("message", Value.str b)]] ∧
    TailInput_parseLine c b = [] := by
  constructor
  · unfold LineParser_parseLine
    rw [h1]
    rfl
  · unfold TailInput_parseLine
    rw [h2]

/-- Witness for C6's amended theorem at concrete failing parsers. -/
theorem parseLine_error_behaviour_witness :
    lpFail.parse "raw" = Except.error "parse error" ∧
    (LineParser_parseLine lpFail "raw" = [makeEvent lpFail [("message", Value.str "raw")]] ∧
      TailInput_parseLine tcFail "raw" = []) :=
  ⟨rfl, parseLine_error_behaviour lpFail tcFail "raw" "parse error" "parse error" rfl rfl⟩

/-- C10: a configuration with an empty `time_key` is normalized by Init to
the key "time", and a line parser built from the normalized configuration
attempts time extraction under the key "time": when the parsed record has a
"time" field the time parser accepts, the emitted event carries that time. -/
theorem timeKey_defaults (c : TailConfig) (h : c.timeKey = "")
    (l : LineParserCtx) (tp : Value → Except String Nat)
    (hk : l.timeKey = (TailInput_initTimeKey c).timeKey)
    (htp : l.timeParse = some tp) (hr : l.rparse = none)
    (v : Record) (val : Value) (t : Nat)
    (hv : lookupRec v "time" = some val) (hparse : tp val = .ok t) :
    (TailInput_initTimeKey c).timeKey = "time" ∧
    makeEvent l v = ⟨l.tag, some t, v⟩ := by
  have hdef : (TailInput_initTimeKey c).timeKey = "time" := by
    unfold TailInput_initTimeKey
    rw [if_pos h]
  refine ⟨hdef, ?_⟩
  unfold makeEvent
  rw [hr, htp, hk, hdef]
  simp [hv, hparse]

/-- Witness for C10 at a concrete configuration and record. -/
theorem timeKey_defaults_witness :
    confNoTime.timeKey = "" ∧
    ((TailInput_initTimeKey confNoTime).timeKey = "time" ∧
      makeEvent lpTime [("time", Value.num 9)] =
        ⟨lpTime.tag, some 9, [("time", Value.num 9)]⟩) :=
  ⟨rfl, timeKey_defaults confNoTime rfl lpTime tpNum rfl rfl rfl
    [("time", Value.num 9)] (Value.num 9) 9 rfl rfl⟩

/-! ## realTag claims -/

theorem replaceAllChar_cons (a : Char) (s : List Char) (c : Char) (new : List Char) :
    replaceAllChar (a :: s) c new =
      if a = c then new ++ replaceAllChar s c new else a :: replaceAllChar s c new := rfl

theorem mem_replaceAllChar (d c : Char) (new : List Char) :
    ∀ s : List Char, d ∈ replaceAllChar s c new → (d ∈ s ∧ d ≠ c) ∨ d ∈ new := by
  intro s
  induction s with
  | nil => intro h; simp [replaceAllChar] at h
  | cons a s ih =>
      intro h
      rw [replaceAllChar_cons] at h
      by_cases hac : a = c
      · rw [if_pos hac] at h
        rcases List.mem_append.mp h with hnew | hrest
        · exact Or.inr hnew
        · rcases ih hrest with ⟨hs, hdc⟩ | hnew
          · exact Or.inl ⟨List.mem_cons_of_mem a hs, hdc⟩
          · exact Or.inr hnew
      · rw [if_neg hac] at h
        rcases List.mem_cons.mp h with rfl | hrest
        · exact Or.inl ⟨List.mem_cons_self d s, fun hdc => hac hdc⟩
        · rcases ih hrest with ⟨hs, hdc⟩ | hnew
          · exact Or.inl ⟨List.mem_cons_of_mem a hs, hdc⟩
          · exact Or.inr hnew

theorem mem_trimChar (d c : Char) (s : List Char) (h : d ∈ trimChar s c) : d ∈ s := by
  unfold trimChar at h
  rw [List.mem_reverse] at h
  have h2 := (List.dropWhile_sublist (fun x => x = c)).subset h
  rw [List.mem_reverse] at h2
  exact (List.dropWhile_sublist (fun x => x = c)).subset h2

/-- C7 counterexample: a path may itself contain a star; substituting it
into a starred tag leaves a star in the result, so `realTag` is not
star-free for every tag and path. -/
theorem realTag_star_cex :
    realTag [Char.ofNat 42] [Char.ofNat 42] = [Char.ofNat 42] ∧
    Char.ofNat 42 ∈ realTag [Char.ofNat 42] [Char.ofNat 42] := by
  decide

/-- C7 amended: whenever the path contains no star, `realTag(tag, path)`
contains no star; a tag without a star is returned unchanged for every
path; and the concrete example evaluates as the claim states. -/
theorem realTag_props (tag path : List Char) :
    (Char.ofNat 42 ∉ path → Char.ofNat 42 ∉ realTag tag path) ∧
    (Char.ofNat 42 ∉ tag → realTag tag path = tag) ∧
    realTag "app.*".data "/var/log/app/x".data = "app.var.log.app.x".data := by
  have hstar : Char.ofNat 42 = '*' := by decide
  rw [hstar]
  refine ⟨?_, ?_, by decide⟩
  · intro hp
    unfold realTag
    by_cases hc : goContains tag '*' = true
    · rw [hc]
      simp only [Bool.not_true, Bool.false_eq_true, if_false]
      intro hmem
      rcases mem_replaceAllChar '*' '*' _ tag hmem with ⟨_, hne⟩ | hnew
      · exact hne rfl
      · rcases mem_replaceAllChar '*' '/' _ (trimChar path '/') hnew with ⟨htr, _⟩ | hdot
        · exact hp (mem_trimChar '*' '/' path htr)
        · simp at hdot
    · have hc2 : goContains tag '*' = false := Bool.eq_false_iff.mpr hc
      rw [hc2]
      simp only [Bool.not_false, if_true]
      intro hmem
      apply hc
      unfold goContains
      exact List.any_eq_true.mpr ⟨'*', hmem, by simp⟩
  · intro htag
    unfold realTag
    have hc2 : goContains tag '*' = false := by
      unfold goContains
      rw [List.any_eq_false]
      intro d hd
      simp only [decide_eq_true_eq]
      intro hdc
      exact htag (hdc ▸ hd)
    rw [hc2]
    simp

/-- Witness for C7's amended theorem: the star-freeness clause at the
spec's concrete example, and the identity clause at a tag without a star
combined with a path that itself contains a star. -/
theorem realTag_props_witness :
    Char.ofNat 42 ∉ realTag "app.*".data "/var/log/app/x".data ∧
    realTag "app".data "any/*/path".data = "app".data ∧
    realTag "app.*".data "/var/log/app/x".data = "app.var.log.app.x".data :=
  ⟨(realTag_props "app.*".data "/var/log/app/x".data).1 (by decide),
   (realTag_props "app".data "any/*/path".data).2.1 (by decide),
   (realTag_props "app.*".data "/var/log/app/x".data).2.2⟩

/-! ## Path-watcher claims -/

theorem chStep_inv (W : List String) (f : String) (S : List String)
    (ch : List (String × Bool)) (hfS : f ∉ S) (hinv : ChInv W S ch) :
    ChInv W (S ++ [f]) (chStep ch f) := by
  obtain ⟨hnd, hch⟩ := hinv
  unfold chStep
  by_cases hany : (ch.any fun e => e.1 = f) = true
  · rw [if_pos hany]
    obtain ⟨e, he, hef⟩ := List.any_eq_true.mp hany
    obtain ⟨g, b⟩ := e
    simp only [decide_eq_true_eq] at hef
    subst hef
    have hb : b = false := by
      cases b
      · rfl
      · exact absurd (((hch g).2.mp he).1) hfS
    subst hb
    have hfW : g ∈ W := ((hch g).1.mp he).1
    constructor
    · exact hnd.sublist ((List.filter_sublist _).map Prod.fst)
    · intro x
      by_cases hxf : x = g
      · subst hxf
        constructor
        · simp [List.mem_filter]
        · constructor
          · intro hmem
            rw [List.mem_filter] at hmem
            simp at hmem
          · intro ⟨_, hnW⟩
            exact absurd hfW hnW
      · constructor
        · rw [List.mem_filter]
          simp only [decide_eq_true_eq, ne_eq]
          rw [(hch x).1]
          constructor
          · rintro ⟨⟨hW, hS⟩, _⟩
            refine ⟨hW, fun hmem => ?_⟩
            rcases List.mem_append.mp hmem with h1 | h2
            · exact hS h1
            · exact hxf (List.mem_singleton.mp h2)
          · rintro ⟨hW, hS⟩
            exact ⟨⟨hW, fun h1 => hS (List.mem_append.mpr (Or.inl h1))⟩, hxf⟩
        · rw [List.mem_filter]
          simp only [decide_eq_true_eq, ne_eq]
          rw [(hch x).2]
          constructor
          · rintro ⟨⟨hS, hW⟩, _⟩
            exact ⟨List.mem_append.mpr (Or.inl hS), hW⟩
          · rintro ⟨hS, hW⟩
            rcases List.mem_append.mp hS with h1 | h2
            · exact ⟨⟨h1, hW⟩, hxf⟩
            · exact absurd (List.mem_singleton.mp h2) hxf
  · rw [if_neg hany]
    have hnotkey : ∀ b, (f, b) ∉ ch := by
      intro b hb
      exact hany (List.any_eq_true.mpr ⟨(f, b), hb, by simp⟩)
    have hfW : f ∉ W := fun hW => hnotkey false ((hch f).1.mpr ⟨hW, hfS⟩)
    constructor
    · rw [List.map_append, List.nodup_append]
      refine ⟨hnd, by simp, ?_⟩
      intro a ha hb
      simp only [List.map_cons, List.map_nil, List.mem_singleton] at hb
      subst hb
      obtain ⟨⟨g, b⟩, hg, hg1⟩ := List.mem_map.mp ha
      simp only at hg1
      subst hg1
      exact hnotkey b hg
    · intro x
      by_cases hxf : x = f
      · subst hxf
        have h1 : (x, false) ∉ ch := hnotkey false
        have h2 : (x, true) ∉ ch := hnotkey true
        constructor
        · simp [h1, hfW]
        · simp [h2, hfW]
      · have hx1 := (hch x).1
        have hx2 := (hch x).2
        constructor
        · simp only [List.mem_append, List.mem_singleton, Prod.mk.injEq,
            Bool.false_eq_true, and_false, or_false, hx1]
          tauto
        · simp only [List.mem_append, List.mem_singleton, Prod.mk.injEq,
            and_true, hx2]
          tauto

theorem chFold_inv (W : List String) :
    ∀ (F S : List String) (ch : List (String × Bool)),
      ChInv W S ch → F.Nodup → (∀ g ∈ F, g ∉ S) →
      ChInv W (S ++ F) (F.foldl chStep ch) := by
  intro F
  induction F with
  | nil =>
      intro S ch h _ _
      simpa using h
  | cons f F ih =>
      intro S ch h hnd hdisj
      rw [List.foldl_cons]
      have h1 : ChInv W (S ++ [f]) (chStep ch f) :=
        chStep_inv W f S ch (hdisj f (List.mem_cons_self f F)) h
      have hnd2 : F.Nodup := (List.nodup_cons.mp hnd).2
      have hfF : f ∉ F := (List.nodup_cons.mp hnd).1
      have hdisj2 : ∀ g ∈ F, g ∉ S ++ [f] := by
        intro g hg hmem
        rcases List.mem_append.mp hmem with h2 | h3
        · exact hdisj g (List.mem_cons_of_mem f hg) h2
        · exact hfF ((List.mem_singleton.mp h3) ▸ hg)
      have := ih (S ++ [f]) (chStep ch f) h1 hnd2 hdisj2
      rwa [List.append_assoc, List.singleton_append] at this

theorem mem_applyChange_true (ws : List String) (f x : String) :
    x ∈ applyChange ws (f, true) ↔ (x ∈ ws ∨ x = f) := by
  unfold applyChange
  simp only [if_true]
  by_cases hc : (ws.contains f) = true
  · rw [if_pos hc]
    have hf : f ∈ ws := by
      rw [List.contains_eq_any_beq] at hc
      obtain ⟨g, hg, hbeq⟩ := List.any_eq_true.mp hc
      have hfg : f = g := by simpa using hbeq
      exact hfg ▸ hg
    constructor
    · exact Or.inl
    · rintro (h | rfl)
      · exact h
      · exact hf
  · rw [if_neg hc]
    simp [List.mem_append]

theorem mem_applyChange_false (ws : List String) (f x : String) :
    x ∈ applyChange ws (f, false) ↔ (x ∈ ws ∧ x ≠ f) := by
  unfold applyChange
  simp [List.mem_filter]

theorem mem_foldl_applyChange :
    ∀ (ch : List (String × Bool)) (ws : List String) (x : String),
      (ch.map Prod.fst).Nodup →
      (x ∈ ch.foldl applyChange ws ↔
        ((x, true) ∈ ch ∨ (x ∈ ws ∧ (x, false) ∉ ch))) := by
  intro ch
  induction ch with
  | nil =>
      intro ws x _
      simp
  | cons e ch ih =>
      obtain ⟨f, b⟩ := e
      intro ws x hnd
      rw [List.foldl_cons]
      have hnd' : (ch.map Prod.fst).Nodup := (List.nodup_cons.mp hnd).2
      have hfkey : f ∉ ch.map Prod.fst := (List.nodup_cons.mp hnd).1
      rw [ih (applyChange ws (f, b)) x hnd']
      by_cases hxf : x = f
      · subst hxf
        have hnot : ∀ bb, (x, bb) ∉ ch := by
          intro bb hmem
          exact hfkey (List.mem_map.mpr ⟨(x, bb), hmem, rfl⟩)
        cases b
        · rw [mem_applyChange_false]
          simp [hnot]
        · rw [mem_applyChange_true]
          simp [hnot]
      · cases b
        · rw [mem_applyChange_false]
          constructor
          · rintro (h1 | ⟨⟨hw, _⟩, h3⟩)
            · exact Or.inl (List.mem_cons_of_mem _ h1)
            · refine Or.inr ⟨hw, fun hmem => ?_⟩
              rcases List.mem_cons.mp hmem with h4 | h5
              · exact hxf (Prod.ext_iff.mp h4).1
              · exact h3 h5
          · rintro (h1 | ⟨hw, h2⟩)
            · rcases List.mem_cons.mp h1 with h3 | h4
              · exact absurd (Prod.ext_iff.mp h3).1 hxf
              · exact Or.inl h4
            · refine Or.inr ⟨⟨hw, hxf⟩, fun hmem => h2 (List.mem_cons_of_mem _ hmem)⟩
        · rw [mem_applyChange_true]
          constructor
          · rintro (h1 | ⟨(hw | hf), h3⟩)
            · exact Or.inl (List.mem_cons_of_mem _ h1)
            · refine Or.inr ⟨hw, fun hmem => ?_⟩
              rcases List.mem_cons.mp hmem with h4 | h5
              · exact hxf (Prod.ext_iff.mp h4).1
              · exact h3 h5
            · exact absurd hf hxf
          · rintro (h1 | ⟨hw, h2⟩)
            · rcases List.mem_cons.mp h1 with h3 | h4
              · exact absurd (Prod.ext_iff.mp h3).1 hxf
              · exact Or.inl h4
            · exact Or.inr ⟨Or.inl hw, fun hmem => h2 (List.mem_cons_of_mem _ hmem)⟩

theorem mem_fst_filter_true (ch : List (String × Bool)) (x : String) :
    x ∈ (ch.filter (fun e => e.2)).map Prod.fst ↔ (x, true) ∈ ch := by
  constructor
  · intro h
    obtain ⟨⟨a, b⟩, hm, ha⟩ := List.mem_map.mp h
    rw [List.mem_filter] at hm
    simp only at ha hm
    subst ha
    cases b
    · simp at hm
    · exact hm.1
  · intro h
    exact List.mem_map.mpr ⟨(x, true), List.mem_filter.mpr ⟨h, rfl⟩, rfl⟩

theorem mem_fst_filter_false (ch : List (String × Bool)) (x : String) :
    x ∈ (ch.filter (fun e => !e.2)).map Prod.fst ↔ (x, false) ∈ ch := by
  constructor
  · intro h
    obtain ⟨⟨a, b⟩, hm, ha⟩ := List.mem_map.mp h
    rw [List.mem_filter] at hm
    simp only at ha hm
    subst ha
    cases b
    · exact hm.1
    · simp at hm
  · intro h
    exact List.mem_map.mpr ⟨(x, false), List.mem_filter.mpr ⟨h, rfl⟩, rfl⟩

/-- C8 counterexample: two glob results that clean to the same path cancel
each other in the `changes` map, leaving the path unwatched even though it
is in the cleaned glob set: here the watcher key set after the iteration is
empty while the cleaned glob set holds "a/c". -/
theorem pathWatcher_dupClean_cex :
    pathWatcherIter cleanPair [] ["a/b/../c", "a/d/../c"] = [] ∧
    "a/c" ∈ (["a/b/../c", "a/d/../c"].map cleanPair) := by
  decide

/-- C8 amended: provided no two glob results clean to the same path (the
cleaned path list is duplicate-free), after one path-watcher iteration the
watcher key set equals the cleaned glob set, a watcher is created exactly
for the newly matched paths, and exactly the paths no longer matched are
removed and closed. -/
theorem pathWatcher_glob_symmetry (clean : String → String) (ws files : List String)
    (hw : ws.Nodup) (hf : (files.map clean).Nodup) :
    ∀ x, (x ∈ pathWatcherIter clean ws files ↔ x ∈ files.map clean) ∧
      (x ∈ createdPaths clean ws files ↔ x ∈ files.map clean ∧ x ∉ ws) ∧
      (x ∈ removedPaths clean ws files ↔ x ∈ ws ∧ x ∉ files.map clean) := by
  have hinit : ChInv ws [] (ws.map fun f => (f, false)) := by
    constructor
    · have : ((ws.map fun f => (f, false)).map Prod.fst) = ws := by
        rw [List.map_map]
        exact List.map_id ws
      rw [this]
      exact hw
    · intro x
      constructor
      · constructor
        · intro h
          obtain ⟨g, hg, hgx⟩ := List.mem_map.mp h
          have : g = x := (Prod.ext_iff.mp hgx).1
          subst this
          exact ⟨hg, by simp⟩
        · rintro ⟨hW, _⟩
          exact List.mem_map.mpr ⟨x, hW, rfl⟩
      · constructor
        · intro h
          obtain ⟨g, _, hgx⟩ := List.mem_map.mp h
          exact absurd (Prod.ext_iff.mp hgx).2 (by simp)
        · rintro ⟨hS, _⟩
          simp at hS
  have hchinv : ChInv ws (files.map clean) (buildChanges ws (files.map clean)) := by
    have := chFold_inv ws (files.map clean) [] (ws.map fun f => (f, false)) hinit hf
      (by simp)
    simpa [buildChanges] using this
  obtain ⟨hknd, hmem⟩ := hchinv
  intro x
  obtain ⟨hfmem, htmem⟩ := hmem x
  refine ⟨?_, ?_, ?_⟩
  · unfold pathWatcherIter
    rw [mem_foldl_applyChange (buildChanges ws (files.map clean)) ws x hknd]
    rw [htmem]
    constructor
    · rintro (⟨hS, _⟩ | ⟨hw2, hnf⟩)
      · exact hS
      · by_contra hns
        exact hnf (hfmem.mpr ⟨hw2, hns⟩)
    · intro hS
      by_cases hxw : x ∈ ws
      · refine Or.inr ⟨hxw, fun hmem2 => ?_⟩
        exact (hfmem.mp hmem2).2 hS
      · exact Or.inl ⟨hS, hxw⟩
  · unfold createdPaths
    rw [mem_fst_filter_true, htmem]
  · unfold removedPaths
    rw [mem_fst_filter_false, hfmem]

/-- Witness for C8's amended theorem at a concrete iteration: one kept
path, one new path, one dropped path. -/
theorem pathWatcher_glob_symmetry_witness :
    (["k", "d"] : List String).Nodup ∧
    (∀ x, (x ∈ pathWatcherIter id ["k", "d"] ["k", "n"] ↔ x ∈ (["k", "n"].map id)) ∧
      (x ∈ createdPaths id ["k", "d"] ["k", "n"] ↔ x ∈ (["k", "n"].map id) ∧ x ∉ ["k", "d"]) ∧
      (x ∈ removedPaths id ["k", "d"] ["k", "n"] ↔ x ∈ ["k", "d"] ∧ x ∉ (["k", "n"].map id))) :=
  ⟨by decide, pathWatcher_glob_symmetry id ["k", "d"] ["k", "n"] (by decide) (by decide)⟩

end Fluxion
